import Mathlib

/-!
# Verification of the financial_assistant RAG pipeline

Shallow embedding of the repository's source (src/main.py, src/config/settings.py,
src/utils/text_processor.py, src/utils/query_engine.py, src/utils/document_loader.py,
src/utils/vector_store_manager.py) together with the parts of its direct library
dependencies that the source invokes (LangChain's `RecursiveCharacterTextSplitter`,
whose splitting algorithm the chunking claims are about).

Strings are modelled as `List Char`; Python integers as `Int`; environment lookup
(`os.getenv`) as `String → Option String`; fallible constructors as `Except`.
-/

/-! ## Python string primitives -/

/-- The ASCII whitespace characters removed by Python's `str.strip()`. -/
def isPySpace (c : Char) : Bool :=
  c = ' ' || c = '\t' || c = '\n' || c = '\r' || c = '\x0b' || c = '\x0c'

/-- Python `str.strip()`: remove leading and trailing whitespace. -/
def pstrip (l : List Char) : List Char :=
  ((l.dropWhile isPySpace).reverse.dropWhile isPySpace).reverse

/-- Python `sub in text` (equivalently `re.search(re.escape(sub), text)`):
contiguous-substring test. -/
def occursIn (sep : List Char) : List Char → Bool
  | [] => sep.isPrefixOf []
  | c :: t => sep.isPrefixOf (c :: t) || occursIn sep t

/-- Index of the leftmost occurrence of `sep` in `text`, if any. -/
def findSub (sep : List Char) : List Char → Option Nat
  | [] => if sep.isPrefixOf [] then some 0 else none
  | c :: t => if sep.isPrefixOf (c :: t) then some 0 else (findSub sep t).map (· + 1)

/-- Python `re.split(sep, text)` for a non-empty literal separator: the pieces of
`text` between leftmost non-overlapping occurrences of `sep` (empty pieces kept).
The fuel argument bounds the recursion; `text.length + 1` always suffices because
every step consumes at least one character. -/
def splitOnSepAux (sep : List Char) : Nat → List Char → List (List Char)
  | 0, text => [text]
  | fuel + 1, text =>
    match findSub sep text with
    | none => [text]
    | some i => text.take i :: splitOnSepAux sep fuel (text.drop (i + sep.length))

/-- `re.split` on a literal separator (see `splitOnSepAux`). -/
def splitOnSep (sep text : List Char) : List (List Char) :=
  splitOnSepAux sep (text.length + 1) text

/-! ## LangChain `RecursiveCharacterTextSplitter`

The repository's `TextProcessor` (src/utils/text_processor.py) delegates all
splitting to LangChain's `RecursiveCharacterTextSplitter`, constructed with
`chunk_size`, `chunk_overlap`, `length_function=len`, `is_separator_regex=False`
and the default `keep_separator=True`, `strip_whitespace=True`,
`add_start_index=False`.  The definitions below transcribe that library code
(langchain_text_splitters: `_split_text_with_regex`, `TextSplitter._join_docs`,
`TextSplitter._merge_splits`, `RecursiveCharacterTextSplitter._split_text`). -/

/-- `_split_text_with_regex(text, separator, keep_separator)` with a literal
(escaped) separator.  For `keep_separator=True` the Python code re-attaches each
separator occurrence to the piece that follows it; for an empty separator it
splits into single characters; empty strings are filtered out at the end. -/
def splitTextWithRegex (text sep : List Char) (keepSep : Bool) : List (List Char) :=
  let splits :=
    if sep ≠ [] then
      if keepSep then
        match splitOnSep sep text with
        | [] => []
        | p :: ps => p :: ps.map (fun q => sep ++ q)
      else splitOnSep sep text
    else text.map (fun c => [c])
  splits.filter (fun s => !s.isEmpty)

/-- `TextSplitter._join_docs(docs, separator)`: join with the separator, strip
whitespace when `strip_whitespace` is set, and return `None` for the empty
result. -/
def joinDocs (sep : List Char) (docs : List (List Char)) (stripWs : Bool) :
    Option (List Char) :=
  let text := (List.intersperse sep docs).flatten
  let text := if stripWs then pstrip text else text
  if text.isEmpty then none else some text

/-- The `while` loop inside `TextSplitter._merge_splits` that pops splits from the
front of `current_doc` until the running total is within the overlap budget.
(When the guard holds on an empty `current_doc` the Python code would raise an
`IndexError`; that situation is unreachable in the configurations proved below,
and the loop simply stops here.) -/
def mergePop (S O sepLen dLen : Int) : List (List Char) → Int → List (List Char) × Int
  | [], total => ([], total)
  | c :: cs, total =>
    if total > O ∨
        (total + dLen + (if (c :: cs).length > 0 then sepLen else 0) > S ∧ total > 0) then
      mergePop S O sepLen dLen cs
        (total - ((c.length : Int) + if cs.length > 0 then sepLen else 0))
    else (c :: cs, total)

/-- One iteration of the `for d in splits` loop of `TextSplitter._merge_splits`:
state is `(docs, current_doc, total)`. -/
def mergeStep (S O : Int) (sep : List Char)
    (st : List (List Char) × List (List Char) × Int) (d : List Char) :
    List (List Char) × List (List Char) × Int :=
  let docs := st.1
  let cur := st.2.1
  let total := st.2.2
  let sepLen : Int := sep.length
  let dLen : Int := d.length
  let next :
      List (List Char) × List (List Char) × Int :=
    if total + dLen + (if cur.length > 0 then sepLen else 0) > S then
      if cur.length > 0 then
        let docs1 :=
          match joinDocs sep cur true with
          | some doc => docs ++ [doc]
          | none => docs
        let popped := mergePop S O sepLen dLen cur total
        (docs1, popped.1, popped.2)
      else (docs, cur, total)
    else (docs, cur, total)
  (next.1, next.2.1 ++ [d],
    next.2.2 + dLen + (if (next.2.1 ++ [d]).length > 1 then sepLen else 0))

/-- `TextSplitter._merge_splits(splits, separator)` (with `strip_whitespace=True`
as in this repository's configuration). -/
def mergeSplits (S O : Int) (splits : List (List Char)) (sep : List Char) :
    List (List Char) :=
  let st := splits.foldl (mergeStep S O sep) ([], [], 0)
  match joinDocs sep st.2.1 true with
  | some doc => st.1 ++ [doc]
  | none => st.1

/-- The separator-selection loop at the top of
`RecursiveCharacterTextSplitter._split_text`: take the first separator that is
empty or occurs in the text; `new_separators` is the remainder of the list (and
`[]` when the empty separator is chosen or the loop falls through). -/
def chooseSepGo (text : List Char) (dflt : List Char) :
    List (List Char) → List Char × List (List Char)
  | [] => (dflt, [])
  | s :: rest =>
    if s = [] then ([], [])
    else if occursIn s text then (s, rest)
    else chooseSepGo text dflt rest

/-- Separator selection (`separator = separators[-1]` is the default when the
loop falls through). -/
def chooseSep (text : List Char) (separators : List (List Char)) :
    List Char × List (List Char) :=
  chooseSepGo text (separators.getLastD []) separators

/-- The `for s in splits` loop of `RecursiveCharacterTextSplitter._split_text`:
short splits accumulate in `_good_splits`; a long split first flushes the
accumulated good splits through `_merge_splits` and is then either appended
as-is (no separators left) or split recursively (`recFn`). -/
def splitLoop (S O : Int) (recFn : List Char → List (List Char)) (mergeSep : List Char) :
    List (List Char) → List (List Char) → List (List Char) → List (List Char)
  | [], good, final =>
    if !good.isEmpty then final ++ mergeSplits S O good mergeSep else final
  | s :: rest, good, final =>
    if (s.length : Int) < S then splitLoop S O recFn mergeSep rest (good ++ [s]) final
    else
      let final1 := if !good.isEmpty then final ++ mergeSplits S O good mergeSep else final
      splitLoop S O recFn mergeSep rest [] (final1 ++ recFn s)

/-- `RecursiveCharacterTextSplitter._split_text(text, separators)`.  The fuel
bounds the recursion depth; each recursive call passes the strictly shorter
`new_separators`, so `separators.length + 1` fuel always suffices. -/
def splitTextFuel (S O : Int) : Nat → List Char → List (List Char) → List (List Char)
  | 0, _, _ => []
  | fuel + 1, text, separators =>
    let chosen := chooseSep text separators
    let separator := chosen.1
    let newSeparators := chosen.2
    let splits := splitTextWithRegex text separator true
    let mergeSep : List Char := []
    let recFn : List Char → List (List Char) :=
      if newSeparators.isEmpty then fun s => [s]
      else fun s => splitTextFuel S O fuel s newSeparators
    splitLoop S O recFn mergeSep splits [] []

/-- The default separator list of `TextProcessor.__init__`
(`["\n\n", "\n", " ", ""]`). -/
def SEPARATORS : List (List Char) := [['\n', '\n'], ['\n'], [' '], []]

/-- `RecursiveCharacterTextSplitter.split_text` as configured by
`TextProcessor.__init__`: `_split_text(text, ["\n\n", "\n", " ", ""])`. -/
def splitText (S O : Int) (text : List Char) : List (List Char) :=
  splitTextFuel S O (SEPARATORS.length + 1) text SEPARATORS

/-- A LangChain `Document`: page content plus a metadata dictionary. -/
structure PyDocument where
  pageContent : List Char
  metadata : List (String × String)
deriving DecidableEq

/-- `TextSplitter.split_documents` / `create_documents` (with
`add_start_index=False`): split each document's content and carry the parent
metadata onto every chunk.  This is `TextProcessor.split_documents`'s underlying
behaviour (the wrapper only adds logging and returns `[]` for `[]`, which the
`bind` below also does). -/
def splitDocuments (S O : Int) (documents : List PyDocument) : List PyDocument :=
  documents.flatMap fun doc =>
    (splitText S O doc.pageContent).map fun chunk => PyDocument.mk chunk doc.metadata

/-! ## src/config/settings.py -/

/-- The `Settings` class body: each field is `os.getenv(name)` (returning `None`
when the variable is missing) or `os.getenv(name, "")` for the three fields with
an explicit `""` default.  Evaluating the class body never raises. -/
structure SettingsState where
  GOOGLE_API_KEY : String
  LLM_MODEL : String
  EMBEDDING_MODEL : String
  CHUNK_SIZE : Option String
  CHUNK_OVERLAP : Option String
  TOP_K : Option String
  TEMPERATURE : Option String
  COLLECTION_NAME : Option String
  VECTOR_STORE_PATH : Option String
deriving DecidableEq

/-- Evaluation of the `Settings` class body against an environment. -/
def loadSettings (env : String → Option String) : SettingsState :=
  SettingsState.mk
    ((env "GOOGLE_API_KEY").getD "")
    ((env "LLM_MODEL").getD "")
    ((env "EMBEDDING_MODEL").getD "")
    (env "CHUNK_SIZE")
    (env "CHUNK_OVERLAP")
    (env "TOP_K")
    (env "TEMPERATURE")
    (env "COLLECTION_NAME")
    (env "VECTOR_STORE_PATH")

/-- Program startup with respect to configuration: importing `config.settings`
evaluates the `Settings` class body, which performs no validation and therefore
always succeeds. -/
def settingsStartup (env : String → Option String) : Except String SettingsState :=
  Except.ok (loadSettings env)

/-- Accumulating decimal-digit parser (the core of Python `int(str)` /
`float(str)` on plain decimal literals). -/
def parseDigitsGo (n : Nat) : List Char → Option Nat
  | [] => some n
  | c :: cs => if c.isDigit then parseDigitsGo (n * 10 + (c.toNat - 48)) cs else none

/-- Parse a non-empty run of decimal digits. -/
def parseDigits (l : List Char) : Option Nat :=
  if l.isEmpty then none else parseDigitsGo 0 l

/-- Python `int(str)` on optionally negated decimal literals. -/
def pyInt (s : String) : Option Int :=
  match s.toList with
  | '-' :: ds => (parseDigits ds).map fun n => -(n : Int)
  | ds => (parseDigits ds).map fun n => (n : Int)

/-- Python `int(x)` applied to an `os.getenv` result: `int(None)` raises a
`TypeError`; `int(s)` parses a decimal string or raises `ValueError`. -/
def pyIntOfEnv : Option String → Except String Int
  | none => Except.error "TypeError: int() argument cannot be NoneType"
  | some s =>
    match pyInt s with
    | some n => Except.ok n
    | none => Except.error "ValueError: invalid literal for int()"

/-- `TextProcessor.__init__` (src/utils/text_processor.py): reads
`Settings.get_summary()`, converts `CHUNK_SIZE` and `CHUNK_OVERLAP` with `int()`
(in that order), then constructs `RecursiveCharacterTextSplitter`, whose base
`TextSplitter.__init__` raises `ValueError` exactly when
`chunk_overlap > chunk_size` (langchain_text_splitters base.py). -/
def textProcessorInit (env : String → Option String) : Except String (Int × Int) :=
  let settings := loadSettings env
  match pyIntOfEnv settings.CHUNK_SIZE with
  | Except.error e => Except.error e
  | Except.ok chunkSize =>
    match pyIntOfEnv settings.CHUNK_OVERLAP with
    | Except.error e => Except.error e
    | Except.ok chunkOverlap =>
      if chunkOverlap > chunkSize then
        Except.error "ValueError: Got a larger chunk overlap than chunk size"
      else Except.ok (chunkSize, chunkOverlap)

/-! ## src/utils/query_engine.py -/

/-- Arguments the `QueryEngine` constructor passes to `ChatGoogleGenerativeAI`.
Temperatures are represented as rationals (the Python literal `0.1` is the
decimal one-tenth). -/
structure LLMConfig where
  model : String
  googleApiKey : String
  temperature : ℚ
deriving DecidableEq

/-- `QueryEngine.__init__`: the language model is constructed from
`settings["LLM_MODEL"]`, `settings["GOOGLE_API_KEY"]` and the literal
`temperature=0.1`. -/
def queryEngineInitLLM (env : String → Option String) : LLMConfig :=
  let settings := loadSettings env
  LLMConfig.mk settings.LLM_MODEL settings.GOOGLE_API_KEY (1 / 10)

/-- Python `float()` on a non-negative decimal literal such as `"0.7"`, used only
to state what value the TEMPERATURE setting denotes. -/
def floatOfDecimal (s : String) : Option ℚ :=
  match splitOnSep ['.'] s.toList with
  | [a] => (parseDigits a).map fun n => (n : ℚ)
  | [a, b] =>
    match parseDigits a, parseDigits b with
    | some n, some f => some ((n : ℚ) + (f : ℚ) / (10 ^ b.length : ℚ))
    | _, _ => none
  | _ => none

/-- `QueryEngine._build_context`: for `enumerate(documents, 1)` render
`[Source: <source>]\n<page_content>` where the source is
`metadata.get('source_file', metadata.get('file_name', f'Document {i}'))`,
then join the parts with `"\n\n"`. -/
def buildContext (documents : List PyDocument) : String :=
  let parts := documents.enum.map fun p =>
    let source := (List.lookup "source_file" p.2.metadata).getD
      ((List.lookup "file_name" p.2.metadata).getD ("Document " ++ toString (p.1 + 1)))
    "[Source: " ++ source ++ "]\n" ++ String.mk p.2.pageContent
  String.intercalate "\n\n" parts

/-- `QueryEngine._create_prompt`: the fixed f-string template around the context
and question. -/
def createPrompt (question context : String) : String :=
  "Based on the following context, please answer the question. \n" ++
  "If the context doesn't contain enough information to answer the question, \n" ++
  "please say \"I cannot answer this question based on the provided documents.\"\n\n" ++
  "Context:\n" ++ context ++ "\n\nQuestion: " ++ question ++ "\n\nAnswer:"

/-- Result of a query: the returned answer and sources, together with the list of
prompts sent to `self.llm.invoke` (in order), so that language-model invocations
are observable. -/
structure QueryOutcome where
  answer : String
  sources : List PyDocument
  llmPrompts : List String
deriving DecidableEq

/-- `QueryEngine.query`: retrieve, short-circuit with the canned response when
nothing was retrieved, otherwise build the context and prompt and invoke the
language model once.  The vector store's `similarity_search` and the language
model are environments of this function. -/
def queryEngineQuery (search : String → Nat → List PyDocument) (llm : String → String)
    (question : String) (k : Nat) : QueryOutcome :=
  let retrievedDocs := search question k
  if retrievedDocs.isEmpty then
    QueryOutcome.mk "No relevant documents found to answer your question." [] []
  else
    let context := buildContext retrievedDocs
    let prompt := createPrompt question context
    let response := llm prompt
    QueryOutcome.mk response retrievedDocs [prompt]

/-- Python `custom_prompt.format(context=..., question=...)` for templates whose
only replacement fields are `{context}` and `{question}`: a single left-to-right
scan substituting each field occurrence. -/
def pyFormatAux (ctx q : List Char) : List Char → List Char
  | [] => []
  | c :: rest =>
    if ("\x7bcontext\x7d".toList).isPrefixOf (c :: rest) then
      ctx ++ pyFormatAux ctx q ((c :: rest).drop 9)
    else if ("\x7bquestion\x7d".toList).isPrefixOf (c :: rest) then
      q ++ pyFormatAux ctx q ((c :: rest).drop 10)
    else c :: pyFormatAux ctx q rest
termination_by l => l.length
decreasing_by
  · simp only [List.length_drop, List.length_cons]; omega
  · simp only [List.length_drop, List.length_cons]; omega
  · simp only [List.length_cons]; omega

/-- `str.format(context=..., question=...)` (see `pyFormatAux`). -/
def pyFormat (template context question : String) : String :=
  String.mk (pyFormatAux context.toList question.toList template.toList)

/-- `QueryEngine.query_with_custom_prompt`: retrieve, build the context (with no
empty-retrieval check), format the caller's template, and invoke the language
model. -/
def queryWithCustomPrompt (search : String → Nat → List PyDocument) (llm : String → String)
    (question customPrompt : String) (k : Nat) : QueryOutcome :=
  let retrievedDocs := search question k
  let context := buildContext retrievedDocs
  let formattedPrompt := pyFormat customPrompt context question
  let response := llm formattedPrompt
  QueryOutcome.mk response retrievedDocs [formattedPrompt]

/-! ## src/utils/document_loader.py -/

/-- Python `str.lower()` (ASCII case folding, as in the extensions compared
here). -/
def pyLower (s : String) : String := String.mk (s.toList.map Char.toLower)

/-- `DocumentLoader.SUPPORTED_EXTENSIONS`. -/
def SUPPORTED_EXTENSIONS : List (String × String) :=
  [(".pdf", "pdf"), (".txt", "text"), (".doc", "doc"), (".docx", "docx"),
   (".ppt", "ppt"), (".pptx", "pptx"), (".xlsx", "excel"), (".xls", "excel"),
   (".csv", "csv"), (".json", "json"), (".html", "html"), (".md", "markdown")]

/-- The loader classes that `_get_loader`'s `loader_map` can instantiate. -/
inductive LoaderKind where
  | pdf | text | docx | pptx | excel | csv | json | html | markdown
deriving DecidableEq

/-- The `loader_map` dictionary inside `DocumentLoader._get_loader` (note: no
entries for the file types `"doc"` and `"ppt"`). -/
def loaderMap (fileType : String) : Option LoaderKind :=
  List.lookup fileType
    [("pdf", LoaderKind.pdf), ("text", LoaderKind.text), ("docx", LoaderKind.docx),
     ("pptx", LoaderKind.pptx), ("excel", LoaderKind.excel), ("csv", LoaderKind.csv),
     ("json", LoaderKind.json), ("html", LoaderKind.html),
     ("markdown", LoaderKind.markdown)]

/-- A `pathlib.Path` as used by `DocumentLoader`: its string form, final
component and extension. -/
structure PyPath where
  path : String
  name : String
  ext : String
deriving DecidableEq

/-- `DocumentLoader._get_loader`: look the lower-cased extension up in
`SUPPORTED_EXTENSIONS`, then the file type up in `loader_map`; `None` from
either lookup means no loader. -/
def getLoader (filePath : PyPath) : Option LoaderKind :=
  let extLower := pyLower filePath.ext
  match List.lookup extLower SUPPORTED_EXTENSIONS with
  | none => none
  | some fileType => loaderMap fileType

/-- `dict.update` on a metadata dictionary: later keys override earlier ones. -/
def metaUpdate (m : List (String × String)) (kvs : List (String × String)) :
    List (String × String) :=
  kvs ++ m.filter (fun p => !(kvs.map Prod.fst).contains p.1)

/-- `DocumentLoader.load_single_file`: skipped files and loader exceptions both
yield `[]` (the whole body is wrapped in `try/except` returning `[]`); loaded
documents get `source_file`, `file_name` and `file_type` metadata.  Running a
loader on the file system is the environment `runLoader`. -/
def loadSingleFile (runLoader : LoaderKind → String → Except String (List PyDocument))
    (filePath : PyPath) : List PyDocument :=
  match getLoader filePath with
  | none => []
  | some kind =>
    match runLoader kind filePath.path with
    | Except.error _ => []
    | Except.ok documents =>
      documents.map fun doc =>
        PyDocument.mk doc.pageContent
          (metaUpdate doc.metadata
            [("source_file", filePath.path), ("file_name", filePath.name),
             ("file_type", (List.lookup (pyLower filePath.ext) SUPPORTED_EXTENSIONS).getD "")])

/-! ## src/main.py -/

/-- The chunks `main` computes with `processor.split_documents(documents)`
(main.py line 18). -/
def mainChunks (S O : Int) (documents : List PyDocument) : List PyDocument :=
  splitDocuments S O documents

/-- The argument `main` actually passes to `vector_store.add_documents`
(main.py line 25): the original `documents` list, not `chunks`. -/
def mainAddDocumentsArgument (documents : List PyDocument) : List PyDocument :=
  documents

/-! ## Auxiliary notions used to state the splitter's behaviour -/

/-- A text as the list of its single-character splits (what
`_split_text_with_regex` produces for the empty separator). -/
def singles (l : List Char) : List (List Char) := l.map fun c => [c]

/-- The chunk a merged window contributes: its stripped content, or nothing when
stripping empties it (this is `_join_docs` on the window). -/
def stripOpt (w : List Char) : Option (List Char) :=
  if (pstrip w).isEmpty then none else some (pstrip w)

/-- Number of chunks the merge loop produces from `L` single-character splits
with chunk size `s` and overlap `o < s`: one window for `L ≤ s`, else
`⌈(L − o) / (s − o)⌉`. -/
def chunkCount (s o L : Nat) : Nat :=
  if L ≤ s then 1 else (L - o - 1) / (s - o) + 1

/-! ## Basic lemmas -/

theorem dropWhile_eq_self_of_forall {p : Char → Bool} {l : List Char}
    (h : ∀ c ∈ l, p c = false) : l.dropWhile p = l := by
  cases l with
  | nil => rfl
  | cons x xs => rw [List.dropWhile_cons, h x (List.mem_cons_self x xs)]; simp

theorem pstrip_eq_self {l : List Char} (h : ∀ c ∈ l, isPySpace c = false) :
    pstrip l = l := by
  unfold pstrip
  rw [dropWhile_eq_self_of_forall h,
    dropWhile_eq_self_of_forall fun c hc => h c (List.mem_reverse.mp hc),
    List.reverse_reverse]

theorem pstrip_eq_nil {l : List Char} (h : ∀ c ∈ l, isPySpace c = true) :
    pstrip l = [] := by
  unfold pstrip
  have h1 : l.dropWhile isPySpace = [] := List.dropWhile_eq_nil_iff.mpr fun x hx => h x hx
  simp [h1]

theorem occursIn_mem_of_true {c : Char} {s t : List Char}
    (h : occursIn (c :: s) t = true) : c ∈ t := by
  induction t with
  | nil => simp [occursIn, List.isPrefixOf] at h
  | cons x xs ih =>
    rw [occursIn, Bool.or_eq_true] at h
    rcases h with h | h
    · rw [List.isPrefixOf_iff_prefix] at h
      rcases h with ⟨r, hr⟩
      rw [List.cons_append] at hr
      rw [List.cons.injEq] at hr
      simp [hr.1]
    · exact List.mem_cons_of_mem _ (ih h)

theorem occursIn_eq_false {c : Char} {s t : List Char} (h : c ∉ t) :
    occursIn (c :: s) t = false := by
  by_contra hne
  exact h (occursIn_mem_of_true (by simpa using hne))

theorem flatten_intersperse_nil (l : List (List Char)) :
    (List.intersperse ([] : List Char) l).flatten = l.flatten := by
  induction l with
  | nil => rfl
  | cons x xs ih =>
    cases xs with
    | nil => rfl
    | cons y ys =>
      rw [List.intersperse_cons_cons]
      simp only [List.flatten_cons] at *
      simp [ih]

theorem flatten_singles (l : List Char) : (singles l).flatten = l := by
  induction l with
  | nil => rfl
  | cons c cs ih => simp [singles, List.flatten_cons] at *; simpa using ih

theorem joinDocs_nil_sep (docs : List (List Char)) :
    joinDocs [] docs true = stripOpt docs.flatten := by
  simp [joinDocs, stripOpt, flatten_intersperse_nil]

theorem filterMap_eq_map_of_forall_some {α β : Type} {l : List α} {g : α → Option β}
    {f : α → β} (h : ∀ a ∈ l, g a = some (f a)) : l.filterMap g = l.map f := by
  induction l with
  | nil => rfl
  | cons x xs ih =>
    rw [List.filterMap_cons, h x (List.mem_cons_self x xs), List.map_cons,
      ih fun a ha => h a (List.mem_cons_of_mem _ ha)]

theorem singles_append (a b : List Char) : singles (a ++ b) = singles a ++ singles b := by
  simp [singles]

theorem singles_drop (l : List Char) (n : Nat) :
    (singles l).drop n = singles (l.drop n) := by
  simp [singles, List.map_drop]

theorem length_le_of_mem_flatten {x : List Char} {l : List (List Char)} (h : x ∈ l) :
    x.length ≤ l.flatten.length := by
  induction l with
  | nil => simp at h
  | cons y ys ih =>
    rw [List.flatten_cons, List.length_append]
    rcases List.mem_cons.mp h with h | h
    · subst h; omega
    · have := ih h; omega

/-! ## The merge loop on single-character splits

For a separator-free text the recursive splitter reduces to
`_merge_splits` applied to the list of single characters with the empty
separator.  The following lemmas characterise that loop: emitted chunks are the
stripped windows `text[k*(s-o) : k*(s-o)+s]`. -/

theorem mergePop_singletons (s o : Nat) (ho : o < s) :
    ∀ l : List (List Char), (∀ x ∈ l, x.length = 1) →
      mergePop (s : Int) (o : Int) 0 1 l (l.length : Int) =
        (l.drop (l.length - o), ((min l.length o : Nat) : Int)) := by
  intro l
  induction l with
  | nil => intro _; simp [mergePop]
  | cons x xs ih =>
    intro hx
    simp only [mergePop]
    by_cases hgt : ((x :: xs).length : Int) > (o : Int)
    · rw [if_pos (Or.inl hgt)]
      have ho_le : o ≤ xs.length := by
        push_cast at hgt; simp only [List.length_cons] at hgt; omega
      have hx1 : x.length = 1 := hx x (List.mem_cons_self x xs)
      have harg : ((x :: xs).length : Int) - ((x.length : Int) + if xs.length > 0 then 0 else 0) =
          (xs.length : Int) := by
        rw [hx1]; simp only [ite_self, List.length_cons]; push_cast; omega
      rw [harg, ih fun y hy => hx y (List.mem_cons_of_mem _ hy)]
      have hdrop : (x :: xs).drop ((x :: xs).length - o) = xs.drop (xs.length - o) := by
        have h1 : (x :: xs).length - o = (xs.length - o) + 1 := by
          simp only [List.length_cons]; omega
        rw [h1, List.drop_succ_cons]
      rw [hdrop]
      have hmin : min (x :: xs).length o = o := by simp only [List.length_cons]; omega
      have hmin2 : min xs.length o = o := by omega
      rw [hmin, hmin2]
    · have hle : xs.length + 1 ≤ o := by
        push_cast at hgt; simp only [List.length_cons] at hgt; omega
      rw [if_neg]
      · have h0 : (x :: xs).length - o = 0 := by simp only [List.length_cons]; omega
        rw [h0, List.drop_zero]
        have hmin : min (x :: xs).length o = (x :: xs).length := by
          simp only [List.length_cons]; omega
        rw [hmin]
      · simp only [ite_self, List.length_cons, not_or, not_and]
        constructor
        · push_cast; omega
        · intro hgt2
          push_cast at hgt2 ⊢
          omega

theorem singles_mem_length {l : List Char} {x : List Char} (h : x ∈ singles l) :
    x.length = 1 := by
  rcases List.mem_map.mp h with ⟨c, _, hc⟩
  simp [← hc]

theorem match_append_toList (docs : List (List Char)) (oo : Option (List Char)) :
    (match oo with
      | some doc => docs ++ [doc]
      | none => docs) = docs ++ oo.toList := by
  cases oo <;> simp

theorem filterMap_range_succ (f : Nat → Option (List Char)) (e : Nat) :
    (List.range (e + 1)).filterMap f = (List.range e).filterMap f ++ (f e).toList := by
  rw [List.range_succ, List.filterMap_append]
  cases h : f e <;> simp [h]

/-- Invariant of the `_merge_splits` loop on single-character splits: after the
first `m` characters, the emitted chunks are the stripped windows
`text[k*(s-o) : k*(s-o)+s]` for `k < e`, and `current_doc` holds the characters
from position `e*(s-o)` to `m`. -/
theorem mergeFold_singles (s o : Nat) (ho : o < s) (text : List Char) :
    ∀ m, m ≤ text.length →
    ∃ e : Nat,
      List.foldl (mergeStep (s : Int) (o : Int) []) ([], [], (0 : Int))
          (singles (text.take m)) =
        ((List.range e).filterMap (fun k => stripOpt ((text.drop (k * (s - o))).take s)),
          singles ((text.take m).drop (e * (s - o))),
          (m : Int) - ((e * (s - o) : Nat) : Int)) ∧
      e * (s - o) ≤ m ∧ m ≤ e * (s - o) + s ∧ (e = 0 ∨ e * (s - o) + o < m) := by
  intro m
  induction m with
  | zero =>
    intro _
    refine ⟨0, ?_, by omega, by omega, Or.inl rfl⟩
    simp [singles]
  | succ m ih =>
    intro hm1
    obtain ⟨e, hstate, hlb, hub, hdisj⟩ := ih (by omega)
    have hmlen : m < text.length := by omega
    have hlentake : (text.take m).length = m := by
      rw [List.length_take]; omega
    have htake : text.take (m + 1) = text.take m ++ [text[m]] :=
      (List.take_concat_get' text m hmlen).symm
    rw [htake, singles_append, List.foldl_append, hstate]
    have hsingle : singles [text[m]] = [[text[m]]] := by simp [singles]
    rw [hsingle]
    simp only [List.foldl_cons, List.foldl_nil]
    have hmul : (e + 1) * (s - o) = e * (s - o) + (s - o) := by ring
    by_cases hover : m < e * (s - o) + s
    · -- no overflow: the character is appended to `current_doc`
      refine ⟨e, ?_, by omega, by omega, ?_⟩
      · simp only [mergeStep, List.length_nil, Nat.cast_zero, List.length_cons,
          zero_add, Nat.cast_one, ite_self]
        rw [if_neg (by omega)]
        dsimp only
        rw [Prod.mk.injEq, Prod.mk.injEq]
        refine ⟨rfl, ?_, ?_⟩
        · rw [List.drop_append_of_le_length (by omega), singles_append, hsingle]
        · omega
      · rcases hdisj with h | h
        · exact Or.inl h
        · exact Or.inr (by omega)
    · -- overflow: `m = e*(s-o) + s`; emit the window and pop back to the overlap
      have hm_eq : m = e * (s - o) + s := by omega
      have hcurlen : (singles ((text.take m).drop (e * (s - o)))).length = s := by
        simp only [singles, List.length_map, List.length_drop, hlentake]
        omega
      have hwindow : (text.take m).drop (e * (s - o)) = (text.drop (e * (s - o))).take s := by
        rw [List.drop_take]
        congr 1
        omega
      refine ⟨e + 1, ?_, by omega, by omega, Or.inr (by omega)⟩
      simp only [mergeStep, List.length_nil, Nat.cast_zero, List.length_cons,
        zero_add, Nat.cast_one, ite_self]
      rw [if_pos (by omega), if_pos (by rw [hcurlen]; omega)]
      dsimp only
      have htotal : (m : Int) - ((e * (s - o) : Nat) : Int) =
          ((singles ((text.take m).drop (e * (s - o)))).length : Int) := by
        rw [hcurlen]; omega
      rw [htotal, mergePop_singletons s o ho _ (fun x hx => singles_mem_length hx)]
      dsimp only
      have hjoin : joinDocs [] (singles ((text.take m).drop (e * (s - o)))) true =
          stripOpt ((text.drop (e * (s - o))).take s) := by
        rw [joinDocs_nil_sep, flatten_singles, hwindow]
      rw [hjoin, hcurlen]
      have hmin : min s o = o := by omega
      rw [hmin, filterMap_range_succ]
      have hcur2 : (singles ((text.take m).drop (e * (s - o)))).drop (s - o) ++ [[text[m]]] =
          singles ((text.take (m + 1)).drop ((e + 1) * (s - o))) := by
        rw [singles_drop, List.drop_drop, ← hmul]
        rw [htake, List.drop_append_of_le_length (by rw [hlentake]; omega), singles_append,
          hsingle]
      rw [htake] at hcur2
      rcases hcase : stripOpt ((text.drop (e * (s - o))).take s) with _ | doc <;>
        simp only [hcase, Option.toList_some, Option.toList_none, List.append_nil] <;>
        rw [Prod.mk.injEq, Prod.mk.injEq] <;>
        exact ⟨rfl, hcur2, by omega⟩

/-- `_merge_splits` of the single-character splits of a text: the chunks are the
stripped windows at positions `k*(s-o)`, one per `k < chunkCount`. -/
theorem mergeSplits_singles (s o : Nat) (ho : o < s) (text : List Char) :
    mergeSplits (s : Int) (o : Int) (singles text) [] =
      (List.range (chunkCount s o text.length)).filterMap
        (fun k => stripOpt ((text.drop (k * (s - o))).take s)) := by
  obtain ⟨e, hstate, hlb, hub, hdisj⟩ := mergeFold_singles s o ho text text.length le_rfl
  rw [List.take_length] at hstate
  have hmul : (e + 1) * (s - o) = e * (s - o) + (s - o) := by ring
  have hcount : chunkCount s o text.length = e + 1 := by
    unfold chunkCount
    by_cases hL : text.length ≤ s
    · rw [if_pos hL]
      rcases Nat.eq_zero_or_pos e with h | h
      · omega
      · exfalso
        have hstep : 1 * (s - o) ≤ e * (s - o) := Nat.mul_le_mul_right _ h
        rcases hdisj with h0 | h0 <;> omega
    · rw [if_neg hL]
      have hepos : 0 < e := by
        by_contra h0
        have he : e = 0 := by omega
        rw [he, zero_mul, zero_add] at hub
        omega
      have hlow : e * (s - o) + o < text.length := by
        rcases hdisj with h0 | h0
        · omega
        · exact h0
      have h1 : e * (s - o) ≤ text.length - o - 1 := by omega
      have h2 : text.length - o - 1 < (e + 1) * (s - o) := by rw [hmul]; omega
      rw [Nat.div_eq_of_lt_le h1 h2]
  rw [hcount]
  unfold mergeSplits
  rw [hstate]
  dsimp only
  have hlast : text.drop (e * (s - o)) = (text.drop (e * (s - o))).take s := by
    refine (List.take_of_length_le ?_).symm
    rw [List.length_drop]
    omega
  have hjoin : joinDocs [] (singles (text.drop (e * (s - o)))) true =
      stripOpt ((text.drop (e * (s - o))).take s) := by
    rw [joinDocs_nil_sep, flatten_singles]
    exact congrArg stripOpt hlast
  rw [hjoin, filterMap_range_succ]
  rcases hcase : stripOpt ((text.drop (e * (s - o))).take s) with _ | doc <;>
    simp [hcase]


/-! ## The recursive splitter on separator-free texts -/

theorem splitLoop_allGood (S O : Int) (recFn : List Char → List (List Char)) :
    ∀ (l good final : List (List Char)), (∀ x ∈ l, (x.length : Int) < S) →
    splitLoop S O recFn [] l good final =
      final ++ (if (good ++ l).isEmpty then [] else mergeSplits S O (good ++ l) []) := by
  intro l
  induction l with
  | nil =>
    intro good final _
    cases hg : good.isEmpty
    · simp [splitLoop, hg]
    · simp [splitLoop, hg]
  | cons x xs ih =>
    intro good final hx
    rw [splitLoop, if_pos (hx x (List.mem_cons_self x xs)),
      ih (good ++ [x]) final fun y hy => hx y (List.mem_cons_of_mem _ hy)]
    rw [List.append_assoc]
    rfl

theorem splitLoop_allBad_single (S O : Int) :
    ∀ (l final : List (List Char)), (∀ x ∈ l, ¬((x.length : Int) < S)) →
    splitLoop S O (fun s => [s]) [] l [] final = final ++ l := by
  intro l
  induction l with
  | nil => intro final _; simp [splitLoop]
  | cons x xs ih =>
    intro final hx
    rw [splitLoop, if_neg (hx x (List.mem_cons_self x xs))]
    simp only [List.isEmpty_nil, Bool.not_true, Bool.false_eq_true, if_false]
    rw [ih (final ++ [x]) fun y hy => hx y (List.mem_cons_of_mem _ hy)]
    simp

theorem splitTextWithRegex_nil (text : List Char) :
    splitTextWithRegex text [] true = singles text := by
  unfold splitTextWithRegex singles
  simp only [ne_eq, not_true_eq_false, if_false, reduceIte]
  rw [List.filter_eq_self.mpr]
  intro a ha
  rcases List.mem_map.mp ha with ⟨c, _, hc⟩
  subst hc
  rfl

/-- On a text in which none of the three non-empty separators occurs, the
separator-selection loop reaches the empty separator. -/
theorem chooseSep_noSep {text : List Char}
    (h1 : occursIn ['\n', '\n'] text = false) (h2 : occursIn ['\n'] text = false)
    (h3 : occursIn [' '] text = false) :
    chooseSep text SEPARATORS = ([], []) := by
  simp [chooseSep, chooseSepGo, SEPARATORS, h1, h2, h3]

/-- On a separator-free text, `split_text` is `_merge_splits` of the
single-character splits (chunk size at least 2). -/
theorem splitText_noSep (S O : Int) (text : List Char)
    (h1 : occursIn ['\n', '\n'] text = false) (h2 : occursIn ['\n'] text = false)
    (h3 : occursIn [' '] text = false) (hS : 1 < S) (hne : text ≠ []) :
    splitText S O text = mergeSplits S O (singles text) [] := by
  show splitTextFuel S O (SEPARATORS.length + 1) text SEPARATORS = _
  rw [splitTextFuel]
  rw [chooseSep_noSep h1 h2 h3]
  dsimp only
  rw [splitTextWithRegex_nil]
  simp only [List.isEmpty_nil, if_true]
  rw [splitLoop_allGood S O _ (singles text) [] [] fun x hx => by
    rw [singles_mem_length hx]; exact_mod_cast hS]
  rw [List.nil_append, List.nil_append]
  rw [if_neg (by simp [singles, List.isEmpty_iff, hne])]

/-- On a separator-free text, `split_text` with chunk size 1 returns the raw
single-character splits (they are all "too long", and no separators remain). -/
theorem splitText_chunkOne (O : Int) (text : List Char)
    (h1 : occursIn ['\n', '\n'] text = false) (h2 : occursIn ['\n'] text = false)
    (h3 : occursIn [' '] text = false) :
    splitText 1 O text = singles text := by
  show splitTextFuel 1 O (SEPARATORS.length + 1) text SEPARATORS = _
  rw [splitTextFuel]
  rw [chooseSep_noSep h1 h2 h3]
  dsimp only
  rw [splitTextWithRegex_nil]
  simp only [List.isEmpty_nil, if_true]
  rw [splitLoop_allBad_single 1 O (singles text) [] fun x hx => by
    rw [singles_mem_length hx]; omega]
  rw [List.nil_append]

theorem singles_eq_windows (l : List Char) :
    (List.range l.length).map (fun k => (l.drop k).take 1) = singles l := by
  induction l with
  | nil => rfl
  | cons c t ih =>
    rw [List.length_cons, List.range_succ_eq_map, List.map_cons, List.map_map]
    have hcomp : ((fun k => ((c :: t).drop k).take 1) ∘ Nat.succ) =
        fun k => (t.drop k).take 1 := by
      funext k
      simp [List.drop_succ_cons]
    rw [hcomp, ih]
    simp [singles]

theorem mul_step_lt_of_lt_chunkCount (s o L : Nat) (ho : o < s) (hL : s < L) :
    ∀ k < chunkCount s o L, k * (s - o) < L := by
  intro k hk
  unfold chunkCount at hk
  rw [if_neg (by omega)] at hk
  have hk' : k ≤ (L - o - 1) / (s - o) := by omega
  have h1 : k * (s - o) ≤ (L - o - 1) / (s - o) * (s - o) :=
    Nat.mul_le_mul_right _ hk'
  have h2 : (L - o - 1) / (s - o) * (s - o) ≤ L - o - 1 := Nat.div_mul_le_self _ _
  omega

/-- `split_text` on a separator-free, whitespace-free text of length `L > s`:
the chunks are exactly the sliding windows of width `s` advancing by `s - o`. -/
theorem splitText_sepFree (s o : Nat) (ho : o < s) (text : List Char)
    (hws : ∀ c ∈ text, isPySpace c = false) (hlen : s < text.length) :
    splitText (s : Int) (o : Int) text =
      (List.range (chunkCount s o text.length)).map
        (fun k => (text.drop (k * (s - o))).take s) := by
  have hnl : ('\n' : Char) ∉ text := fun hmem => by
    have := hws _ hmem; simp [isPySpace] at this
  have hsp : (' ' : Char) ∉ text := fun hmem => by
    have := hws _ hmem; simp [isPySpace] at this
  have h1 : occursIn ['\n', '\n'] text = false := occursIn_eq_false hnl
  have h2 : occursIn ['\n'] text = false := occursIn_eq_false hnl
  have h3 : occursIn [' '] text = false := occursIn_eq_false hsp
  have hne : text ≠ [] := by
    intro h
    rw [h] at hlen
    simp at hlen
  by_cases hs1 : s = 1
  · subst hs1
    have ho0 : o = 0 := by omega
    subst ho0
    simp only [Nat.cast_one, Nat.cast_zero]
    rw [splitText_chunkOne _ _ h1 h2 h3]
    have hcc : chunkCount 1 0 text.length = text.length := by
      unfold chunkCount
      rw [if_neg (by omega)]
      simp [Nat.div_one]
      omega
    rw [hcc]
    have hfun : (fun k => (text.drop (k * (1 - 0))).take 1) =
        fun k => (text.drop k).take 1 := by
      funext k
      simp
    rw [hfun, singles_eq_windows]
  · have hs2 : (1 : Int) < (s : Nat) := by exact_mod_cast (by omega : 1 < s)
    rw [splitText_noSep _ _ _ h1 h2 h3 hs2 hne, mergeSplits_singles s o ho]
    refine filterMap_eq_map_of_forall_some ?_
    intro k hk
    have hklt : k * (s - o) < text.length :=
      mul_step_lt_of_lt_chunkCount s o text.length ho hlen k (List.mem_range.mp hk)
    have hwsub : ∀ c ∈ (text.drop (k * (s - o))).take s, isPySpace c = false := fun c hc =>
      hws c (List.mem_of_mem_drop (List.mem_of_mem_take hc))
    have hwne : (text.drop (k * (s - o))).take s ≠ [] := by
      intro hnil
      rcases List.take_eq_nil_iff.mp hnil with h | h
      · omega
      · rw [List.drop_eq_nil_iff] at h
        omega
    unfold stripOpt
    rw [pstrip_eq_self hwsub, if_neg (by simpa [List.isEmpty_iff] using hwne)]

/-! ## The splitter on short texts (length at most the chunk size) -/

theorem findSub_prefix (sep : List Char) :
    ∀ text i, findSub sep text = some i → sep.isPrefixOf (text.drop i) = true := by
  intro text
  induction text with
  | nil =>
    intro i h
    rw [findSub] at h
    split_ifs at h with hp
    cases h
    simpa using hp
  | cons c t ih =>
    intro i h
    rw [findSub] at h
    split_ifs at h with hp
    · cases h; simpa using hp
    · rcases Option.map_eq_some'.mp h with ⟨j, hj, hij⟩
      subst hij
      rw [List.drop_succ_cons]
      exact ih j hj

theorem findSub_nil_of_ne {sep : List Char} (h : sep ≠ []) : findSub sep [] = none := by
  cases sep with
  | nil => exact absurd rfl h
  | cons c cs => rfl

theorem flatten_intersperse_cons (sep a : List Char) {l : List (List Char)} (h : l ≠ []) :
    (List.intersperse sep (a :: l)).flatten = a ++ sep ++ (List.intersperse sep l).flatten := by
  cases l with
  | nil => exact absurd rfl h
  | cons b bs =>
    rw [List.intersperse_cons_cons]
    simp [List.flatten_cons, List.append_assoc]

theorem splitOnSepAux_ne_nil (sep : List Char) (fuel : Nat) (text : List Char) :
    splitOnSepAux sep fuel text ≠ [] := by
  cases fuel with
  | zero => simp [splitOnSepAux]
  | succ fuel =>
    rw [splitOnSepAux]
    cases findSub sep text <;> simp

/-- `re.split` pieces reassemble to the original text. -/
theorem splitOnSepAux_flatten (sep : List Char) (hsep : sep ≠ []) :
    ∀ fuel text, text.length < fuel →
      (List.intersperse sep (splitOnSepAux sep fuel text)).flatten = text := by
  intro fuel
  induction fuel with
  | zero => intro text h; omega
  | succ fuel ih =>
    intro text hlt
    rw [splitOnSepAux]
    cases hfind : findSub sep text with
    | none => simp
    | some i =>
      have hpref := findSub_prefix sep text i hfind
      rw [List.isPrefixOf_iff_prefix] at hpref
      rcases hpref with ⟨r, hr⟩
      have hsep_pos : 0 < sep.length := List.length_pos_of_ne_nil hsep
      have hi_le : i ≤ text.length := by
        by_contra hgt
        push_neg at hgt
        rw [List.drop_eq_nil_of_le (show text.length ≤ i by omega)] at hr
        exact hsep (List.append_eq_nil.mp hr).1
      have hrest : text.drop (i + sep.length) = r := by
        have h1 : (text.drop i).drop sep.length = r := by
          rw [← hr]
          simp [List.drop_left']
        rw [← h1, List.drop_drop]
      have hdroplen : (text.drop (i + sep.length)).length < fuel := by
        rw [List.length_drop]
        have : 0 < text.length := by
          by_contra h0
          push_neg at h0
          have htext : text = [] := List.eq_nil_of_length_eq_zero (by omega)
          rw [htext, findSub_nil_of_ne hsep] at hfind
          cases hfind
        omega
      rw [flatten_intersperse_cons sep _ (splitOnSepAux_ne_nil sep fuel _)]
      rw [ih _ hdroplen, hrest, List.append_assoc, hr]
      exact List.take_append_drop i text

theorem splitOnSep_flatten (sep text : List Char) (hsep : sep ≠ []) :
    (List.intersperse sep (splitOnSep sep text)).flatten = text :=
  splitOnSepAux_flatten sep hsep _ text (by omega)

theorem flatten_filter_nonempty (l : List (List Char)) :
    (l.filter fun s => !s.isEmpty).flatten = l.flatten := by
  induction l with
  | nil => rfl
  | cons x xs ih =>
    rw [List.filter_cons]
    cases hx : x.isEmpty
    · simp only [Bool.not_false, if_true, List.flatten_cons, ih]
    · have : x = [] := List.isEmpty_iff.mp hx
      subst this
      simpa using ih

theorem mem_filter_nonempty_ne_nil {l : List (List Char)} {x : List Char}
    (h : x ∈ l.filter fun s => !s.isEmpty) : x ≠ [] := by
  have := (List.mem_filter.mp h).2
  simpa [List.isEmpty_iff] using this

theorem flatten_cons_map_append (sep p : List Char) (ps : List (List Char)) :
    (p :: ps.map fun q => sep ++ q).flatten =
      (List.intersperse sep (p :: ps)).flatten := by
  induction ps generalizing p with
  | nil => simp
  | cons b bs ihb =>
    rw [List.intersperse_cons_cons]
    simp only [List.map_cons, List.flatten_cons, ← ihb b]
    simp [List.append_assoc]

/-- The pieces produced by `_split_text_with_regex` with `keep_separator=True`
reassemble to the original text. -/
theorem splitTextWithRegex_flatten (text sep : List Char) :
    (splitTextWithRegex text sep true).flatten = text := by
  unfold splitTextWithRegex
  cases hsep : sep with
  | nil =>
    simp only [ne_eq, not_true_eq_false, if_false, reduceIte]
    rw [flatten_filter_nonempty]
    exact flatten_singles text
  | cons c cs =>
    simp only [ne_eq, reduceCtorEq, not_false_eq_true, if_true, reduceIte]
    rw [flatten_filter_nonempty]
    rcases hsplit : splitOnSep (c :: cs) text with _ | ⟨p, ps⟩
    · exact absurd hsplit (splitOnSepAux_ne_nil _ _ _)
    · rw [flatten_cons_map_append, ← hsplit, splitOnSep_flatten _ _ (by simp)]

/-- When the splits sum to at most the chunk size, the merge loop never
overflows: everything accumulates into one `current_doc`. -/
theorem foldl_mergeStep_noOverflow (S O : Int) :
    ∀ (l acc : List (List Char)), ((acc ++ l).flatten.length : Int) ≤ S →
    List.foldl (mergeStep S O []) ([], acc, (acc.flatten.length : Int)) l =
      ([], acc ++ l, ((acc ++ l).flatten.length : Int)) := by
  intro l
  induction l with
  | nil => intro acc _; simp
  | cons d ds ih =>
    intro acc hsum
    have hlens : ((acc ++ d :: ds).flatten.length : Int) =
        (acc.flatten.length : Int) + d.length + ds.flatten.length := by
      simp [List.flatten_append, List.flatten_cons]
      ring
    rw [List.foldl_cons]
    have hstep : mergeStep S O [] ([], acc, (acc.flatten.length : Int)) d =
        ([], acc ++ [d], ((acc ++ [d]).flatten.length : Int)) := by
      simp only [mergeStep, List.length_nil, Nat.cast_zero, ite_self]
      rw [if_neg (by rw [hlens] at hsum; have := ds.flatten.length; omega)]
      dsimp only
      rw [Prod.mk.injEq, Prod.mk.injEq]
      refine ⟨rfl, rfl, ?_⟩
      simp only [List.flatten_append, List.flatten_cons, List.flatten_nil,
        List.length_append, List.append_nil]
      push_cast
      ring
    rw [hstep, ih (acc ++ [d]) (by rw [List.append_assoc]; simpa using hsum)]
    rw [List.append_assoc]
    rfl

/-- `_merge_splits` of splits whose total length fits in one chunk: a single
(stripped) chunk, or nothing when stripping empties it. -/
theorem mergeSplits_noOverflow (S O : Int) (splits : List (List Char))
    (h : (splits.flatten.length : Int) ≤ S) :
    mergeSplits S O splits [] = (stripOpt splits.flatten).toList := by
  simp only [mergeSplits]
  have h' : List.foldl (mergeStep S O []) ([], [], (0 : Int)) splits =
      ([], splits, ((splits.flatten.length : Nat) : Int)) := by
    have hfold := foldl_mergeStep_noOverflow S O splits [] (by simpa using h)
    simpa using hfold
  rw [h']
  dsimp only
  rw [joinDocs_nil_sep]
  rcases hcase : stripOpt splits.flatten with _ | doc <;> simp [hcase]

/-- The separator-selection loop always breaks when `""` is among the separators:
either at `""` itself, or earlier at a separator that occurs in the text. -/
theorem chooseSepGo_cases (text dflt : List Char) :
    ∀ seps : List (List Char), [] ∈ seps →
      chooseSepGo text dflt seps = ([], []) ∨
      ∃ sep rest, chooseSepGo text dflt seps = (sep, rest) ∧ sep ≠ [] ∧
        occursIn sep text = true ∧ rest.length < seps.length ∧ [] ∈ rest := by
  intro seps
  induction seps with
  | nil => intro h; simp at h
  | cons s ss ih =>
    intro hmem
    rw [chooseSepGo]
    by_cases hs : s = []
    · rw [if_pos hs]
      exact Or.inl rfl
    · rw [if_neg hs]
      have hmem' : [] ∈ ss := by
        rcases List.mem_cons.mp hmem with h | h
        · exact absurd h.symm hs
        · exact h
      by_cases hocc : occursIn s text = true
      · rw [if_pos hocc]
        exact Or.inr ⟨s, ss, rfl, hs, hocc, by simp, hmem'⟩
      · rw [if_neg hocc]
        rcases ih hmem' with h | ⟨sep, rest, heq, hsep, hocc', hlt, hmem''⟩
        · exact Or.inl h
        · exact Or.inr ⟨sep, rest, heq, hsep, hocc',
            by simp only [List.length_cons]; omega, hmem''⟩

/-- A list of non-empty pieces one of which is as long as the whole
concatenation is that single piece. -/
theorem eq_singleton_of_mem_flatten_length {l : List (List Char)} {x : List Char}
    (hne : ∀ y ∈ l, y ≠ []) (hx : x ∈ l) (hlen : l.flatten.length ≤ x.length) :
    l = [x] := by
  induction l with
  | nil => simp at hx
  | cons y ys ih =>
    rw [List.flatten_cons, List.length_append] at hlen
    rcases List.mem_cons.mp hx with h | h
    · subst h
      have hflat : ys.flatten.length = 0 := by omega
      have hys : ys = [] := by
        cases ys with
        | nil => rfl
        | cons z zs =>
          exfalso
          have hz : z ≠ [] := hne z (by simp)
          rw [List.flatten_cons, List.length_append] at hflat
          have := List.length_pos_of_ne_nil hz
          omega
      rw [hys]
    · exfalso
      have h1 : x.length ≤ ys.flatten.length := length_le_of_mem_flatten h
      have hy : y ≠ [] := hne y (by simp)
      have := List.length_pos_of_ne_nil hy
      omega

theorem splitLoop_single_bad (S O : Int) (recFn : List Char → List (List Char))
    (x : List Char) (h : ¬((x.length : Int) < S)) :
    splitLoop S O recFn [] [x] [] [] = recFn x := by
  rw [splitLoop, if_neg h]
  simp only [List.isEmpty_nil, Bool.not_true, Bool.false_eq_true, if_false]
  rw [splitLoop]
  simp

/-- `_split_text` on a text no longer than the chunk size (chunk size at least 2):
a single stripped chunk, or no chunk when the text is all whitespace.  The
hypothesis `[] ∈ seps` holds for the default separator chain and all its
suffixes that can be recursed into. -/
theorem splitTextFuel_small (S O : Int) (hS : 2 ≤ S) :
    ∀ (fuel : Nat) (seps : List (List Char)) (text : List Char),
      seps.length < fuel → [] ∈ seps → ((text.length : Int) ≤ S) →
      splitTextFuel S O fuel text seps = (stripOpt text).toList := by
  intro fuel
  induction fuel with
  | zero => intro seps text h _ _; omega
  | succ fuel ih =>
    intro seps text hfuel hmem hlen
    rw [splitTextFuel]
    rcases chooseSepGo_cases text (seps.getLastD []) seps hmem with hch |
        ⟨sep, rest, hch, hsep, hocc, hrestlt, hrestmem⟩ <;>
      rw [show chooseSep text seps = _ from hch] <;> dsimp only
    · -- the empty separator was chosen: single-character splits, all short
      rw [splitTextWithRegex_nil]
      simp only [List.isEmpty_nil, if_true]
      rw [splitLoop_allGood S O _ (singles text) [] [] fun x hx => by
        rw [singles_mem_length hx]; omega]
      rw [List.nil_append, List.nil_append]
      cases htext : text with
      | nil => simp [singles, stripOpt, pstrip]
      | cons c t =>
        rw [if_neg (by simp [singles])]
        rw [← htext, mergeSplits_noOverflow S O _ (by rw [flatten_singles]; exact hlen),
          flatten_singles]
    · -- a non-empty separator was chosen
      set splits := splitTextWithRegex text sep true with hsplits
      have hflat : splits.flatten = text := splitTextWithRegex_flatten text sep
      have hnonnil : ∀ y ∈ splits, y ≠ [] := fun y hy => mem_filter_nonempty_ne_nil hy
      by_cases hbad : ∃ x ∈ splits, ¬((x.length : Int) < S)
      · -- one split is the whole text: recurse with the remaining separators
        rcases hbad with ⟨x, hx, hxlen⟩
        have hxle : x.length ≤ text.length := by
          rw [← hflat]; exact length_le_of_mem_flatten hx
        have hsingle : splits = [x] := by
          refine eq_singleton_of_mem_flatten_length hnonnil hx ?_
          rw [hflat]
          omega
        have hxeq : x = text := by
          have := congrArg List.flatten hsingle
          rw [hflat] at this
          simpa using this.symm
        rw [hsingle, hxeq]
        rw [splitLoop_single_bad S O _ text (by rw [← hxeq]; exact hxlen)]
        rw [if_neg (by simp [List.isEmpty_iff]; intro hcon; rw [hcon] at hrestmem; simp at hrestmem)]
        exact ih rest text (by omega) hrestmem hlen
      · -- all splits are short: one merge of everything
        push_neg at hbad
        rw [splitLoop_allGood S O _ splits [] [] hbad]
        rw [List.nil_append, List.nil_append]
        cases hsp : splits with
        | nil =>
          have : text = [] := by rw [← hflat, hsp]; rfl
          rw [this]
          simp [stripOpt, pstrip]
        | cons p ps =>
          rw [if_neg (by simp)]
          rw [← hsp, mergeSplits_noOverflow S O _ (by rw [hflat]; exact hlen), hflat]

/-- `split_text` (with the default separator chain) on a text no longer than the
chunk size: a single stripped chunk, or none if all whitespace. -/
theorem splitText_small (S O : Int) (hS : 2 ≤ S) (text : List Char)
    (hlen : (text.length : Int) ≤ S) :
    splitText S O text = (stripOpt text).toList :=
  splitTextFuel_small S O hS (SEPARATORS.length + 1) SEPARATORS text
    (by omega) (by simp [SEPARATORS]) hlen

theorem splitDocuments_singleton (S O : Int) (d : PyDocument) :
    splitDocuments S O [d] =
      (splitText S O d.pageContent).map fun chunk => PyDocument.mk chunk d.metadata := by
  simp [splitDocuments]

/-- `chunkCount` written as the ceiling `⌈(L - o) / (s - o)⌉`. -/
theorem chunkCount_eq_ceil (s o L : Nat) (ho : o < s) (hL : s < L) :
    chunkCount s o L = (L - o + (s - o) - 1) / (s - o) := by
  unfold chunkCount
  rw [if_neg (by omega)]
  have harith : L - o + (s - o) - 1 = (L - o - 1) + (s - o) := by omega
  rw [harith, Nat.add_div_right _ (by omega)]

theorem map_enum_eq_map_range {α β : Type} (f : Nat × α → β) (l : List α) (dflt : α) :
    l.enum.map f = (List.range l.length).map fun i => f (i, l.getD i dflt) := by
  refine List.ext_getElem (by simp) ?_
  intro i h1 h2
  simp only [List.getElem_map, List.getElem_enum, List.getElem_range]
  congr 1
  rw [List.getD_eq_getElem]

/-! ## The claims -/

/-- Claim C2: for every question, if the vector index's similarity search
returns zero documents, `QueryEngine.query` returns the canned response
"No relevant documents found to answer your question." paired with an empty
source list, and the language model is not invoked at all on that path (no
prompt is sent to it). -/
theorem c2_query_short_circuits_on_empty_retrieval
    (search : String → Nat → List PyDocument) (llm : String → String)
    (question : String) (k : Nat) (h : search question k = []) :
    queryEngineQuery search llm question k =
      QueryOutcome.mk "No relevant documents found to answer your question." [] [] := by
  unfold queryEngineQuery
  rw [h]
  rfl

/-- Witness for C2 at a concrete empty index. -/
theorem c2_query_short_circuits_on_empty_retrieval_witness :
    (fun (_ : String) (_ : Nat) => ([] : List PyDocument)) "any question" 5 = [] ∧
    queryEngineQuery (fun _ _ => []) (fun _ => "model answer") "any question" 5 =
      QueryOutcome.mk "No relevant documents found to answer your question." [] [] :=
  ⟨rfl, c2_query_short_circuits_on_empty_retrieval (fun _ _ => []) (fun _ => "model answer")
    "any question" 5 rfl⟩

/-- Claim C3 counterexample: with every environment variable missing, startup
(evaluating the `Settings` class body) succeeds — `CHUNK_SIZE` is simply `None` —
and the failure only happens later, when `TextProcessor.__init__` calls
`int(None)`.  This refutes the claim that the program fails at startup before
any component use. -/
theorem c3_counterexample :
    settingsStartup (fun _ => none) = Except.ok (loadSettings fun _ => none) ∧
    (loadSettings fun _ => none).CHUNK_SIZE = none ∧
    textProcessorInit (fun _ => none) =
      Except.error "TypeError: int() argument cannot be NoneType" :=
  ⟨rfl, rfl, rfl⟩

/-- Claim C3 (amended): a missing required configuration value does not make the
program fail at startup; `Settings` stores `None` and the failure surfaces only
when `TextProcessor.__init__` first converts the value with `int()`. -/
theorem c3_missing_value_fails_at_first_use (env : String → Option String)
    (h : env "CHUNK_SIZE" = none) :
    settingsStartup env = Except.ok (loadSettings env) ∧
    textProcessorInit env =
      Except.error "TypeError: int() argument cannot be NoneType" := by
  refine ⟨rfl, ?_⟩
  simp only [textProcessorInit]
  have hcs : (loadSettings env).CHUNK_SIZE = env "CHUNK_SIZE" := rfl
  rw [hcs, h]
  rfl

/-- Witness for C3 at the all-missing environment. -/
theorem c3_missing_value_fails_at_first_use_witness :
    ((fun (_ : String) => (none : Option String)) "CHUNK_SIZE" = none) ∧
    (settingsStartup (fun _ => none) = Except.ok (loadSettings fun _ => none) ∧
      textProcessorInit (fun _ => none) =
        Except.error "TypeError: int() argument cannot be NoneType") :=
  ⟨rfl, c3_missing_value_fails_at_first_use (fun _ => none) rfl⟩

/-- Claim C4 counterexample: with `CHUNK_OVERLAP` equal to `CHUNK_SIZE` (both
200), constructing the `TextProcessor` succeeds — LangChain's `TextSplitter`
only raises for a *strictly larger* overlap — refuting the claim that the
equality case is rejected at construction. -/
theorem c4_counterexample :
    textProcessorInit (fun k =>
      if k = "CHUNK_SIZE" then some "200"
      else if k = "CHUNK_OVERLAP" then some "200" else none) =
      Except.ok (200, 200) := rfl

/-- Claim C4 (amended): construction raises exactly when
`chunk_overlap > chunk_size` (strictly); it succeeds whenever
`chunk_overlap ≤ chunk_size`, including the equality case. -/
theorem c4_overlap_check_is_strict (env : String → Option String) (cs co : Int)
    (h1 : pyIntOfEnv (loadSettings env).CHUNK_SIZE = Except.ok cs)
    (h2 : pyIntOfEnv (loadSettings env).CHUNK_OVERLAP = Except.ok co) :
    (co > cs → textProcessorInit env =
      Except.error "ValueError: Got a larger chunk overlap than chunk size") ∧
    (co ≤ cs → textProcessorInit env = Except.ok (cs, co)) := by
  simp only [textProcessorInit]
  rw [h1, h2]
  constructor
  · intro h
    simp only [if_pos h]
  · intro h
    simp only [if_neg (by omega : ¬co > cs)]

/-- Witness for C4 at a concrete environment with overlap larger than size. -/
theorem c4_overlap_check_is_strict_witness :
    pyIntOfEnv (loadSettings fun k =>
        if k = "CHUNK_SIZE" then some "1000"
        else if k = "CHUNK_OVERLAP" then some "1100" else none).CHUNK_SIZE =
      Except.ok 1000 ∧
    pyIntOfEnv (loadSettings fun k =>
        if k = "CHUNK_SIZE" then some "1000"
        else if k = "CHUNK_OVERLAP" then some "1100" else none).CHUNK_OVERLAP =
      Except.ok 1100 ∧
    ((1100 > (1000 : Int) → textProcessorInit (fun k =>
        if k = "CHUNK_SIZE" then some "1000"
        else if k = "CHUNK_OVERLAP" then some "1100" else none) =
      Except.error "ValueError: Got a larger chunk overlap than chunk size") ∧
    (1100 ≤ (1000 : Int) → textProcessorInit (fun k =>
        if k = "CHUNK_SIZE" then some "1000"
        else if k = "CHUNK_OVERLAP" then some "1100" else none) =
      Except.ok (1000, 1100))) :=
  ⟨rfl, rfl, c4_overlap_check_is_strict _ 1000 1100 rfl rfl⟩

/-- Claim C7 counterexample: with `TEMPERATURE=0.7` in the environment (denoting
seven tenths), the `QueryEngine` still constructs its language model with
temperature `0.1`, refuting the claim that the setting determines the model's
temperature. -/
theorem c7_counterexample :
    floatOfDecimal "0.7" = some (7 / 10) ∧
    (queryEngineInitLLM fun k =>
      if k = "TEMPERATURE" then some "0.7" else none).temperature = 1 / 10 ∧
    (1 : ℚ) / 10 ≠ 7 / 10 := by
  refine ⟨?_, rfl, by norm_num⟩
  have hsplit : splitOnSep ['.'] "0.7".toList = [['0'], ['7']] := by decide
  have hd0 : parseDigits ['0'] = some 0 := by decide
  have hd7 : parseDigits ['7'] = some 7 := by decide
  simp only [floatOfDecimal, hsplit, hd0, hd7, List.length_singleton]
  norm_num

/-- Claim C7 (amended): the `QueryEngine` constructs its language model with the
fixed literal temperature `0.1`, regardless of the `TEMPERATURE` environment
setting (which is read into `Settings` but never used on this path). -/
theorem c7_temperature_is_hardcoded (env : String → Option String) :
    (queryEngineInitLLM env).temperature = 1 / 10 := rfl

/-- Claim C9: `query_with_custom_prompt` does not short-circuit on empty
retrieval: with zero retrieved documents it still invokes the language model
exactly once, on the caller's template formatted with the empty context string,
and returns the model's response paired with an empty document list. -/
theorem c9_custom_prompt_no_short_circuit
    (search : String → Nat → List PyDocument) (llm : String → String)
    (question customPrompt : String) (k : Nat) (h : search question k = []) :
    buildContext [] = "" ∧
    queryWithCustomPrompt search llm question customPrompt k =
      QueryOutcome.mk (llm (pyFormat customPrompt "" question)) []
        [pyFormat customPrompt "" question] := by
  refine ⟨rfl, ?_⟩
  unfold queryWithCustomPrompt
  rw [h]
  rfl

/-- Witness for C9 at a concrete empty index and template. -/
theorem c9_custom_prompt_no_short_circuit_witness :
    (fun (_ : String) (_ : Nat) => ([] : List PyDocument)) "q" 5 = [] ∧
    (buildContext [] = "" ∧
      queryWithCustomPrompt (fun _ _ => []) (fun p => p ++ "!") "q" "Answer briefly." 5 =
        QueryOutcome.mk ((fun p => p ++ "!") (pyFormat "Answer briefly." "" "q")) []
          [pyFormat "Answer briefly." "" "q"]) :=
  ⟨rfl, c9_custom_prompt_no_short_circuit (fun _ _ => []) (fun p => p ++ "!")
    "q" "Answer briefly." 5 rfl⟩

/-- Claim C10: for every file whose extension lower-cases to `.doc` or `.ppt`,
the extension is in `SUPPORTED_EXTENSIONS` (file types `"doc"`/`"ppt"`), but
`_get_loader`'s `loader_map` has no entry for that file type, so
`load_single_file` returns zero documents without raising, exactly like an
unsupported extension. -/
theorem c10_doc_ppt_skipped (fp : PyPath)
    (h : pyLower fp.ext = ".doc" ∨ pyLower fp.ext = ".ppt") :
    (∃ ft, List.lookup (pyLower fp.ext) SUPPORTED_EXTENSIONS = some ft ∧
      loaderMap ft = none) ∧
    getLoader fp = none ∧
    ∀ runLoader, loadSingleFile runLoader fp = [] := by
  have hload : getLoader fp = none := by
    unfold getLoader
    rcases h with h | h <;> rw [h] <;> rfl
  refine ⟨?_, hload, fun runLoader => ?_⟩
  · rcases h with h | h <;> rw [h]
    · exact ⟨"doc", rfl, rfl⟩
    · exact ⟨"ppt", rfl, rfl⟩
  · unfold loadSingleFile
    rw [hload]

/-- Claim C8: for every non-empty list of retrieved documents (given in
descending-similarity order), `_build_context` renders each document, in that
same input order, as `[Source: <source identifier>]\n<chunk content>` — the
source identifier being `source_file`, else `file_name`, else `Document <i>`
with the 1-based position — and joins consecutive blocks with exactly one blank
line (`"\n\n"`), so the output preserves the input order. -/
theorem c8_build_context_ordered_blocks (docs : List PyDocument) (h : docs ≠ []) :
    buildContext docs =
      String.intercalate "\n\n" ((List.range docs.length).map fun i =>
        "[Source: " ++
          ((List.lookup "source_file" (docs.getD i (PyDocument.mk [] [])).metadata).getD
            ((List.lookup "file_name" (docs.getD i (PyDocument.mk [] [])).metadata).getD
              ("Document " ++ toString (i + 1)))) ++
        "]\n" ++ String.mk (docs.getD i (PyDocument.mk [] [])).pageContent) := by
  simp only [buildContext]
  rw [map_enum_eq_map_range _ docs (PyDocument.mk [] [])]

/-- Witness for C8 at a one-document list carrying a `source_file`. -/
theorem c8_build_context_ordered_blocks_witness :
    ([PyDocument.mk ['h'] [("source_file", "f.txt")]] ≠ []) ∧
    buildContext [PyDocument.mk ['h'] [("source_file", "f.txt")]] =
      String.intercalate "\n\n"
        ((List.range [PyDocument.mk ['h'] [("source_file", "f.txt")]].length).map fun i =>
          "[Source: " ++
            ((List.lookup "source_file"
                ([PyDocument.mk ['h'] [("source_file", "f.txt")]].getD i
                  (PyDocument.mk [] [])).metadata).getD
              ((List.lookup "file_name"
                  ([PyDocument.mk ['h'] [("source_file", "f.txt")]].getD i
                    (PyDocument.mk [] [])).metadata).getD
                ("Document " ++ toString (i + 1)))) ++
          "]\n" ++ String.mk
            ([PyDocument.mk ['h'] [("source_file", "f.txt")]].getD i
              (PyDocument.mk [] [])).pageContent) :=
  ⟨by simp, c8_build_context_ordered_blocks [PyDocument.mk ['h'] [("source_file", "f.txt")]]
    (by simp)⟩

/-- Claim C6 counterexample: the 2-character document " a" (length at most the
configured chunk size 1000) splits into the single chunk "a" — the stripped
content — not a chunk character-for-character equal to the original content. -/
theorem c6_counterexample :
    splitDocuments 1000 200 [PyDocument.mk [' ', 'a'] []] = [PyDocument.mk ['a'] []] ∧
    PyDocument.mk ['a'] ([] : List (String × String)) ≠ PyDocument.mk [' ', 'a'] [] := by
  constructor
  · decide
  · decide

/-- Claim C6 (amended): for every document whose content has length at most the
chunk size (chunk size at least 2), splitting yields exactly one chunk whose
content is the original content with leading/trailing whitespace stripped —
and zero chunks when the content is empty or all whitespace. -/
theorem c6_small_document_single_stripped_chunk (S O : Int) (d : PyDocument)
    (hS : 2 ≤ S) (hlen : (d.pageContent.length : Int) ≤ S) :
    splitDocuments S O [d] =
      if pstrip d.pageContent = [] then []
      else [PyDocument.mk (pstrip d.pageContent) d.metadata] := by
  rw [splitDocuments_singleton, splitText_small S O hS _ hlen]
  unfold stripOpt
  by_cases hstrip : (pstrip d.pageContent).isEmpty = true
  · rw [if_pos hstrip, if_pos (List.isEmpty_iff.mp hstrip)]
    rfl
  · rw [if_neg hstrip, if_neg fun hc => hstrip (List.isEmpty_iff.mpr hc)]
    rfl

/-- Witness for C6 at a concrete short document with surrounding whitespace. -/
theorem c6_small_document_single_stripped_chunk_witness :
    ((2 : Int) ≤ 1000 ∧
      (((PyDocument.mk [' ', 'h', 'i'] [("file_name", "f")]).pageContent.length : Int) ≤ 1000) ∧
    splitDocuments 1000 200 [PyDocument.mk [' ', 'h', 'i'] [("file_name", "f")]] =
      if pstrip (PyDocument.mk [' ', 'h', 'i'] [("file_name", "f")]).pageContent = []
      then []
      else [PyDocument.mk
        (pstrip (PyDocument.mk [' ', 'h', 'i'] [("file_name", "f")]).pageContent)
        (PyDocument.mk [' ', 'h', 'i'] [("file_name", "f")]).metadata]) :=
  ⟨by norm_num, by norm_num,
    c6_small_document_single_stripped_chunk 1000 200
      (PyDocument.mk [' ', 'h', 'i'] [("file_name", "f")]) (by norm_num) (by norm_num)⟩

/-- Claim C5 (amended): for every document whose content contains none of the
separators (and no whitespace characters at all, so that chunk stripping is the
identity) and has length `L > chunk_size`, splitting yields exactly
`⌈(L − overlap) / (chunk_size − overlap)⌉` chunks, the `k`-th being the window
`content[k*(size−overlap) : k*(size−overlap)+size]`; each chunk has length at
most `chunk_size`, and adjacent chunks share exactly `overlap` characters at
the boundary. -/
theorem c5_separator_free_sliding_windows (s o : Nat) (text : List Char)
    (ho : o < s) (hlen : s < text.length) (hws : ∀ c ∈ text, isPySpace c = false) :
    splitText (s : Int) (o : Int) text =
      (List.range ((text.length - o + (s - o) - 1) / (s - o))).map
        (fun k => (text.drop (k * (s - o))).take s) ∧
    (splitText (s : Int) (o : Int) text).length =
      (text.length - o + (s - o) - 1) / (s - o) ∧
    (∀ chunk ∈ splitText (s : Int) (o : Int) text, chunk.length ≤ s) ∧
    ∀ k, k + 1 < (text.length - o + (s - o) - 1) / (s - o) →
      ((text.drop (k * (s - o))).take s).drop (s - o) =
        ((text.drop ((k + 1) * (s - o))).take s).take o := by
  have hmain := splitText_sepFree s o ho text hws hlen
  rw [chunkCount_eq_ceil s o text.length ho hlen] at hmain
  refine ⟨hmain, ?_, ?_, ?_⟩
  · rw [hmain]
    simp
  · intro chunk hchunk
    rw [hmain] at hchunk
    rcases List.mem_map.mp hchunk with ⟨k, _, hk⟩
    rw [← hk]
    exact List.length_take_le _ _
  · intro k _
    have hso : s - (s - o) = o := by omega
    have hmin : min o s = o := by omega
    have hmul : k * (s - o) + (s - o) = (k + 1) * (s - o) := by ring
    rw [List.drop_take, List.drop_drop, List.take_take, hso, hmin, hmul]

/-- Witness for C5 at the spec's scenario: 2500 separator-free characters with
chunk size 1000 and overlap 200 — `⌈2300/800⌉ = 3` windows at positions 0, 800
and 1600. -/
theorem c5_separator_free_sliding_windows_witness :
    (200 < 1000 ∧ 1000 < (List.replicate 2500 'a').length ∧
      ∀ c ∈ List.replicate 2500 'a', isPySpace c = false) ∧
    (splitText ((1000 : Nat) : Int) ((200 : Nat) : Int) (List.replicate 2500 'a') =
      (List.range (((List.replicate 2500 'a').length - 200 + (1000 - 200) - 1) /
          (1000 - 200))).map
        (fun k => ((List.replicate 2500 'a').drop (k * (1000 - 200))).take 1000) ∧
    (splitText ((1000 : Nat) : Int) ((200 : Nat) : Int) (List.replicate 2500 'a')).length =
      ((List.replicate 2500 'a').length - 200 + (1000 - 200) - 1) / (1000 - 200) ∧
    (∀ chunk ∈ splitText ((1000 : Nat) : Int) ((200 : Nat) : Int) (List.replicate 2500 'a'),
      chunk.length ≤ 1000) ∧
    ∀ k, k + 1 < ((List.replicate 2500 'a').length - 200 + (1000 - 200) - 1) / (1000 - 200) →
      (((List.replicate 2500 'a').drop (k * (1000 - 200))).take 1000).drop (1000 - 200) =
        (((List.replicate 2500 'a').drop ((k + 1) * (1000 - 200))).take 1000).take 200) :=
  ⟨⟨by norm_num, by rw [List.length_replicate]; norm_num,
      fun c hc => by rw [List.eq_of_mem_replicate hc]; rfl⟩,
    c5_separator_free_sliding_windows 1000 200 (List.replicate 2500 'a')
      (by norm_num) (by rw [List.length_replicate]; norm_num)
      (fun c hc => by rw [List.eq_of_mem_replicate hc]; rfl)⟩

/-- Claim C5 counterexample: 1001 tab characters contain none of the separators
and exceed the chunk size 1000, so the claimed formula says
`⌈(1001−200)/800⌉ = 2` chunks — but every window strips to the empty string and
is discarded, so splitting yields 0 chunks. -/
theorem c5_counterexample :
    occursIn ['\n', '\n'] (List.replicate 1001 '\t') = false ∧
    occursIn ['\n'] (List.replicate 1001 '\t') = false ∧
    occursIn [' '] (List.replicate 1001 '\t') = false ∧
    1000 < (List.replicate 1001 '\t').length ∧
    ((List.replicate 1001 '\t').length - 200 + (1000 - 200) - 1) / (1000 - 200) = 2 ∧
    splitText 1000 200 (List.replicate 1001 '\t') = [] := by
  have hnl : ('\n' : Char) ∉ List.replicate 1001 '\t' := by
    intro hmem
    have := List.eq_of_mem_replicate hmem
    simp at this
  have hsp : (' ' : Char) ∉ List.replicate 1001 '\t' := by
    intro hmem
    have := List.eq_of_mem_replicate hmem
    simp at this
  have h1 := occursIn_eq_false (s := ['\n']) hnl
  have h2 := occursIn_eq_false (s := []) hnl
  have h3 := occursIn_eq_false (s := []) hsp
  refine ⟨h1, h2, h3, by rw [List.length_replicate]; norm_num,
    by rw [List.length_replicate], ?_⟩
  have hcast : (1000 : Int) = ((1000 : Nat) : Int) := by norm_num
  have hcast2 : (200 : Int) = ((200 : Nat) : Int) := by norm_num
  rw [hcast, hcast2]
  rw [splitText_noSep _ _ _ h1 h2 h3 (by norm_num)
      (List.ne_nil_of_length_pos (by rw [List.length_replicate]; norm_num)),
    mergeSplits_singles 1000 200 (by norm_num)]
  rw [List.filterMap_eq_nil_iff]
  intro k _
  have hws : ∀ c ∈ ((List.replicate 1001 '\t').drop (k * (1000 - 200))).take 1000,
      isPySpace c = true := by
    intro c hc
    have := List.eq_of_mem_replicate (List.mem_of_mem_drop (List.mem_of_mem_take hc))
    rw [this]
    rfl
  unfold stripOpt
  rw [pstrip_eq_nil hws]
  rfl

/-- Claim C1 (code bug in main.py): `main` computes
`chunks = processor.split_documents(documents)` but then calls
`vector_store.add_documents(documents)` with the original documents list.  For
one 2500-character separator-free document under the configuration
chunk_size=1000, overlap=200, the chunker produces 3 chunks while the vector
store receives the 1 raw document, so the indexed records are not the chunks. -/
theorem c1_add_documents_receives_raw_documents :
    mainAddDocumentsArgument [PyDocument.mk (List.replicate 2500 'a') []] =
      [PyDocument.mk (List.replicate 2500 'a') []] ∧
    (mainChunks 1000 200 [PyDocument.mk (List.replicate 2500 'a') []]).length = 3 ∧
    mainAddDocumentsArgument [PyDocument.mk (List.replicate 2500 'a') []] ≠
      mainChunks 1000 200 [PyDocument.mk (List.replicate 2500 'a') []] := by
  have hws : ∀ c ∈ List.replicate 2500 'a', isPySpace c = false := by
    intro c hc
    rw [List.eq_of_mem_replicate hc]
    rfl
  have hlen3 : (mainChunks 1000 200 [PyDocument.mk (List.replicate 2500 'a') []]).length = 3 := by
    unfold mainChunks
    rw [splitDocuments_singleton, List.length_map]
    have hmain := splitText_sepFree 1000 200 (by norm_num) (List.replicate 2500 'a')
      hws (by rw [List.length_replicate]; norm_num)
    rw [show ((1000 : Nat) : Int) = (1000 : Int) by norm_num,
      show ((200 : Nat) : Int) = (200 : Int) by norm_num] at hmain
    show (splitText 1000 200 (List.replicate 2500 'a')).length = 3
    rw [hmain, List.length_map, List.length_range, List.length_replicate]
    decide
  refine ⟨rfl, hlen3, ?_⟩
  intro hcontra
  have hlencontra := congrArg List.length hcontra
  rw [hlen3] at hlencontra
  have hone : (mainAddDocumentsArgument
      [PyDocument.mk (List.replicate 2500 'a') []]).length = 1 := rfl
  omega

/-- Witness for C10 at a concrete upper-case `.DOC` file. -/
theorem c10_doc_ppt_skipped_witness :
    (pyLower (PyPath.mk "/data/report.DOC" "report.DOC" ".DOC").ext = ".doc" ∨
      pyLower (PyPath.mk "/data/report.DOC" "report.DOC" ".DOC").ext = ".ppt") ∧
    ((∃ ft, List.lookup (pyLower (PyPath.mk "/data/report.DOC" "report.DOC" ".DOC").ext)
        SUPPORTED_EXTENSIONS = some ft ∧ loaderMap ft = none) ∧
      getLoader (PyPath.mk "/data/report.DOC" "report.DOC" ".DOC") = none ∧
      ∀ runLoader, loadSingleFile runLoader (PyPath.mk "/data/report.DOC" "report.DOC" ".DOC") = []) :=
  ⟨Or.inl (by decide), c10_doc_ppt_skipped _ (Or.inl (by decide))⟩
